import Mathlib

set_option maxHeartbeats 1000000

/-!
Shallow embedding of QDirStat's `PkgManager.cpp`: the three package-manager
backends (dpkg, rpm, pacman), the backend registry built by
`PkgQuery::checkPkgManagers`, the bounded ownership cache
(`QCache<QString, QString>` with `CACHE_SIZE = 500`, `CACHE_COST = 1`) and
the `PkgQuery` query service.

External subprocess execution (`SysUtil::runCommand`, `tryRunCommand`,
`haveCommand`) is an external collaborator; it is modelled as an abstract-at-
the-boundary record of functions (`SysEnv`).  QString values are modelled
as `String` / `List Char`.  The stateful singleton is modelled by explicit
state passing; backend invocations are additionally traced (the list of
names of backends actually invoked), mirroring the spec's call-count
instrumentation on fake backends.
-/

/-- Result of running an external command: captured output and exit code
(`SysUtil::runCommand` with an `exitCode` out-parameter). -/
structure CmdResult where
  output : String
  exitCode : Int
  deriving DecidableEq, Repr

/-- The external subprocess interface (`SysUtil`): `runCommand` captures
output and exit code, `tryRunCommand` runs a command line and matches its
output against a QRegExp pattern (the pattern is kept abstract, as its source
text), `haveCommand` checks that a binary exists. -/
structure SysEnv where
  runCommand : String → List String → CmdResult
  tryRunCommand : String → String → Bool
  haveCommand : String → Bool

/-- Does the character list start with the given pattern
(`QString::startsWith` on character lists). -/
def startsWithL : List Char → List Char → Bool
  | _, [] => true
  | [], _ :: _ => false
  | c :: cs, p :: ps => c == p && startsWithL cs ps

/-- Models `QString::contains` for plain substrings, on character lists. -/
def containsL : List Char → List Char → Bool
  | [], pat => pat.isEmpty
  | c :: cs, pat => startsWithL (c :: cs) pat || containsL cs pat

/-- Models `QString::contains(pat)` for a plain substring pattern. -/
def qContains (s pat : String) : Bool := containsL s.data pat.data

/-- Models `QString::section(sep, 0, 0)` (default flags): the characters before the
first occurrence of the separator, the whole string when the separator does
not occur. -/
def firstSectionL : List Char → List Char → List Char
  | [], _ => []
  | c :: cs, sep => if startsWithL (c :: cs) sep then [] else c :: firstSectionL cs sep

/-- Models `QString::section(sep, 0, 0)` on strings. -/
def qSection0 (s sep : String) : String := String.mk (firstSectionL s.data sep.data)

/-- The suffix after the rightmost occurrence of the pattern, when the
pattern occurs at all (the remainder after a greedy `QRegExp "^.*pat"`
match). -/
def afterLastL : List Char → List Char → Option (List Char)
  | [], pat => if pat.isEmpty then some [] else none
  | c :: cs, pat =>
    match afterLastL cs pat with
    | some r => some r
    | none => if startsWithL (c :: cs) pat then some ((c :: cs).drop pat.length) else none

/-- Models `QString::remove(QRegExp("^.*pat"))`: strip everything up to and
including the rightmost occurrence of `pat` (greedy `.*`); the string is
unchanged when `pat` does not occur. -/
def removeDotStarPat (s pat : String) : String :=
  match afterLastL s.data pat.data with
  | some r => String.mk r
  | none => s

/-- Models `QString::split` by a single separator character, keeping empty parts
(the source splits on the one-character separator strings `"\n"` and
`" "`). -/
def splitCharL (sep : Char) : List Char → List (List Char)
  | [] => [[]]
  | c :: cs =>
    if c == sep then [] :: splitCharL sep cs
    else
      match splitCharL sep cs with
      | [] => [[c]]
      | r :: rs => (c :: r) :: rs

/-- Models `QString::split(sep)` with `KeepEmptyParts`, for a one-character
separator. -/
def qSplit (sep : Char) (s : String) : List String :=
  (splitCharL sep s.data).map String.mk

/-- Models `PkgInfo(name, version, arch)`: one installed-package record, in the
constructor argument order of the call site `new PkgInfo(name, version,
arch)`. -/
structure PkgInfo where
  name : String
  version : String
  arch : String
  deriving DecidableEq, Repr

/-- Models `DpkgPkgManager::isPrimaryPkgManager`. -/
def DpkgPkgManager.isPrimaryPkgManager (env : SysEnv) : Bool :=
  env.tryRunCommand "/usr/bin/dpkg -S /usr/bin/dpkg" "^dpkg:.*"

/-- Models `DpkgPkgManager::isAvailable`. -/
def DpkgPkgManager.isAvailable (env : SysEnv) : Bool :=
  env.haveCommand "/usr/bin/dpkg"

/-- Models `DpkgPkgManager::owningPkg`: run `dpkg -S path`; empty on non-zero exit
or the dpkg failure marker, otherwise the part of the output before the
first `":"`. -/
def DpkgPkgManager.owningPkg (env : SysEnv) (path : String) : String :=
  let r := env.runCommand "/usr/bin/dpkg" ["-S", path]
  if r.exitCode != 0 || qContains r.output "no path found matching pattern" then ""
  else qSection0 r.output ":"

/-- The loop body of `DpkgPkgManager::parsePkgList`: skip an empty line;
split a non-empty line on blanks; append a record when there are exactly
three fields (name, arch, version), otherwise log and skip the line. -/
def parsePkgListLine (pkgList : List PkgInfo) (line : String) : List PkgInfo :=
  if line ≠ "" then
    match qSplit ' ' line with
    | [name, arch, version] => pkgList ++ [PkgInfo.mk name version arch]
    | _ => pkgList
  else pkgList

/-- Models `DpkgPkgManager::parsePkgList`: one record per line of
`name arch version`; empty lines are skipped; a line that does not split
into exactly three space-separated fields is logged and skipped. -/
def DpkgPkgManager.parsePkgList (output : String) : List PkgInfo :=
  (qSplit '\n' output).foldl parsePkgListLine []

/-- Models `DpkgPkgManager::installedPkg`: run `dpkg-query --show`; parse on exit
code 0, empty list otherwise. -/
def DpkgPkgManager.installedPkg (env : SysEnv) : List PkgInfo :=
  let r := env.runCommand "/usr/bin/dpkg-query"
      ["--show", "--showformat=${Package} ${Architecture} ${Version}\n"]
  if r.exitCode = 0 then DpkgPkgManager.parsePkgList r.output else []

/-- Models `DpkgPkgManager::fileList`: not implemented in the source (FIXME);
always returns the empty list. -/
def DpkgPkgManager.fileList (_pkg : PkgInfo) : List String := []

/-- Models `RpmPkgManager`: holds the resolved rpm binary path `_rpmCommand`. -/
structure RpmPkgManager where
  _rpmCommand : String
  deriving DecidableEq, Repr

/-- Models `RpmPkgManager::RpmPkgManager`: resolve the rpm binary once at
construction; intentionally never left empty even when rpm is not
available. -/
def RpmPkgManager.construct (env : SysEnv) : RpmPkgManager :=
  if env.haveCommand "/usr/bin/rpm" then ⟨"/usr/bin/rpm"⟩ else ⟨"/bin/rpm"⟩

/-- Models `RpmPkgManager::isPrimaryPkgManager`:
`tryRunCommand(QString("%1 -qf %1").arg(_rpmCommand), "^rpm.*")`. -/
def RpmPkgManager.isPrimaryPkgManager (env : SysEnv) (m : RpmPkgManager) : Bool :=
  env.tryRunCommand (m._rpmCommand ++ " -qf " ++ m._rpmCommand) "^rpm.*"

/-- Models `RpmPkgManager::isAvailable`. -/
def RpmPkgManager.isAvailable (env : SysEnv) (m : RpmPkgManager) : Bool :=
  env.haveCommand m._rpmCommand

/-- Models `RpmPkgManager::owningPkg`: run `rpm -qf --queryformat %{NAME} path`;
empty on non-zero exit or the rpm failure marker, otherwise the whole
output. -/
def RpmPkgManager.owningPkg (env : SysEnv) (m : RpmPkgManager) (path : String) : String :=
  let r := env.runCommand m._rpmCommand ["-qf", "--queryformat", "%{NAME}", path]
  if r.exitCode != 0 || qContains r.output "not owned by any package" then ""
  else r.output

/-- Models `PacManPkgManager::isPrimaryPkgManager`. -/
def PacManPkgManager.isPrimaryPkgManager (env : SysEnv) : Bool :=
  env.tryRunCommand "/usr/bin/pacman -Qo /usr/bin/pacman" ".*is owned by pacman.*"

/-- Models `PacManPkgManager::isAvailable`. -/
def PacManPkgManager.isAvailable (env : SysEnv) : Bool :=
  env.haveCommand "/usr/bin/pacman"

/-- Models `PacManPkgManager::owningPkg`: run `pacman -Qo path`; empty on non-zero
exit or the pacman failure marker; otherwise strip the leading
`"<path> is owned by "` part (`remove(QRegExp("^.*is owned by "))`) and
take the field before the first blank. -/
def PacManPkgManager.owningPkg (env : SysEnv) (path : String) : String :=
  let r := env.runCommand "/usr/bin/pacman" ["-Qo", path]
  if r.exitCode != 0 || qContains r.output "No package owns" then ""
  else qSection0 (removeDotStarPat r.output "is owned by ") " "

/-- The polymorphic `PkgManager` interface as `PkgQuery` sees one backend:
its name, its probe results and its three query operations. -/
structure PkgManager where
  name : String
  isPrimaryPkgManager : Bool
  isAvailable : Bool
  owningPkg : String → String
  installedPkg : List PkgInfo
  fileList : PkgInfo → List String

/-- The dpkg backend as a `PkgManager`.  The `name()` string lives in the
header, which is not part of this source file; modelled as "dpkg". -/
def DpkgPkgManager.toPkgManager (env : SysEnv) : PkgManager :=
  { name := "dpkg",
    isPrimaryPkgManager := DpkgPkgManager.isPrimaryPkgManager env,
    isAvailable := DpkgPkgManager.isAvailable env,
    owningPkg := DpkgPkgManager.owningPkg env,
    installedPkg := DpkgPkgManager.installedPkg env,
    fileList := DpkgPkgManager.fileList }

/-- The rpm backend as a `PkgManager`, constructed first (resolving
`_rpmCommand`).  Modelled from the spec: `name()`, `installedPkg()` and
`fileList()` are declared outside this source file; the spec records the
rpm installed-list as not exercised by this core and `fileList` as a
capability gap, so both are modelled as empty. -/
def RpmPkgManager.toPkgManager (env : SysEnv) : PkgManager :=
  let m := RpmPkgManager.construct env
  { name := "rpm",
    isPrimaryPkgManager := RpmPkgManager.isPrimaryPkgManager env m,
    isAvailable := RpmPkgManager.isAvailable env m,
    owningPkg := RpmPkgManager.owningPkg env m,
    installedPkg := [],
    fileList := fun _ => [] }

/-- The pacman backend as a `PkgManager`.  Modelled from the spec: `name()`,
`installedPkg()` and `fileList()` are declared outside this source file and
recorded by the spec as not exercised / empty, so both are modelled as
empty. -/
def PacManPkgManager.toPkgManager (env : SysEnv) : PkgManager :=
  { name := "pacman",
    isPrimaryPkgManager := PacManPkgManager.isPrimaryPkgManager env,
    isAvailable := PacManPkgManager.isAvailable env,
    owningPkg := PacManPkgManager.owningPkg env,
    installedPkg := [],
    fileList := fun _ => [] }

/-- The entry list of the ownership cache, most recent first. -/
abbrev CacheEntries := List (String × String)

/-- An eviction step: which entries remain after `QCache` deletes one entry
when over capacity. -/
abbrev EvictFn := CacheEntries → CacheEntries

/-- Models `QCache<QString, QString>` with every entry of cost `CACHE_COST = 1`:
`maxCost` is the capacity, `entries` are kept most recent first, and the
eviction tie-break (which entry is deleted when over capacity) is a
parameter of the operations that evict. -/
structure Cache where
  maxCost : Nat
  entries : CacheEntries

/-- Models `QCache::contains(key)`. -/
def Cache.containsKey (c : Cache) (key : String) : Bool :=
  c.entries.any (fun e => e.1 == key)

/-- Models `QCache` keyed lookup (`_cache[path]`). -/
def Cache.lookup (c : Cache) (key : String) : Option String :=
  (c.entries.find? (fun e => e.1 == key)).map (fun e => e.2)

/-- Models `QCache` trimming: while the total cost (here, the entry count) exceeds
`maxCost`, evict one entry chosen by `σ`.  Written with explicit fuel; the
operations below always pass enough fuel. -/
def Cache.trimLoop (σ : EvictFn) (maxCost : Nat) : Nat → CacheEntries → CacheEntries
  | 0, es => es
  | fuel + 1, es =>
    if maxCost < es.length then Cache.trimLoop σ maxCost fuel (σ es) else es

/-- Models `QCache::insert(key, value, CACHE_COST)`: drop any existing entry for
the key, insert the new entry as most recent, then trim to `maxCost`. -/
def Cache.insert (σ : EvictFn) (c : Cache) (key value : String) : Cache :=
  let es := (key, value) :: c.entries.filter (fun e => !(e.1 == key))
  { c with entries := Cache.trimLoop σ c.maxCost es.length es }

/-- Models `QCache`'s LRU eviction: with entries most recent first, the least
recently used entry is the last one. -/
def evictLRU : EvictFn := List.dropLast

/-- Models `PkgQuery`'s state: the ownership cache and the active package managers
(the registry's output). -/
structure PkgQueryState where
  _cache : Cache
  _pkgManagers : List PkgManager

/-- The backend loop of `PkgQuery::getOwningPackage`, instrumented with the
names of the backends actually invoked: try each manager in order and stop
at the first non-empty `owningPkg` result. -/
def PkgQuery.owningLoop : List PkgManager → String → String × List String
  | [], _ => ("", [])
  | m :: ms, path =>
    let pkg := m.owningPkg path
    if pkg.isEmpty then
      let rest := PkgQuery.owningLoop ms path
      (rest.1, m.name :: rest.2)
    else (pkg, [m.name])

/-- Models `PkgQuery::getOwningPackage`: answer from the cache when the path is
present, otherwise run the backend loop and insert the result (even when
empty) into the cache.  Returns the result, the new state, and the names of
the backends invoked. -/
def PkgQuery.getOwningPackage (s : PkgQueryState) (path : String) :
    String × PkgQueryState × List String :=
  if s._cache.containsKey path then
    ((s._cache.lookup path).getD "", s, [])
  else
    let r := PkgQuery.owningLoop s._pkgManagers path
    (r.1, { s with _cache := s._cache.insert evictLRU path r.1 }, r.2)

/-- Models `PkgQuery::getInstalledPkg`: append every active manager's
`installedPkg()` list. -/
def PkgQuery.getInstalledPkg (s : PkgQueryState) : List PkgInfo :=
  s._pkgManagers.foldl (fun pkgList m => pkgList ++ m.installedPkg) []

/-- The backend loop of `PkgQuery::getFileList`, instrumented with the
names of the backends actually invoked: return the first non-empty
`fileList` result, the empty list when none is non-empty. -/
def PkgQuery.fileListLoop : List PkgManager → PkgInfo → List String × List String
  | [], _ => ([], [])
  | m :: ms, pkg =>
    let fl := m.fileList pkg
    if fl.isEmpty then
      let rest := PkgQuery.fileListLoop ms pkg
      (rest.1, m.name :: rest.2)
    else (fl, [m.name])

/-- Models `PkgQuery::getFileList` with its invocation trace. -/
def PkgQuery.getFileList (s : PkgQueryState) (pkg : PkgInfo) : List String × List String :=
  PkgQuery.fileListLoop s._pkgManagers pkg

/-- Models `PkgQuery::checkPkgManager`: classify one backend as primary (first
list), secondary (second list), or discard it. -/
def PkgQuery.checkPkgManager (st : List PkgManager × List PkgManager) (m : PkgManager) :
    List PkgManager × List PkgManager :=
  if m.isPrimaryPkgManager then (st.1 ++ [m], st.2)
  else if m.isAvailable then (st.1, st.2 ++ [m])
  else st

/-- The fixed probe order of `PkgQuery::checkPkgManagers`: Dpkg, Rpm,
Pacman. -/
def PkgQuery.probeOrder (env : SysEnv) : List PkgManager :=
  [DpkgPkgManager.toPkgManager env, RpmPkgManager.toPkgManager env,
   PacManPkgManager.toPkgManager env]

/-- Models `PkgQuery::checkPkgManagers`: probe the backends in the fixed order,
then append the secondary list to the primary list. -/
def PkgQuery.checkPkgManagers (env : SysEnv) : List PkgManager :=
  let st := (PkgQuery.probeOrder env).foldl PkgQuery.checkPkgManager ([], [])
  st.1 ++ st.2

/-- Models `PkgQuery::PkgQuery`: the cache capacity is `CACHE_SIZE = 500`, then
the registry is built. -/
def PkgQuery.init (env : SysEnv) : PkgQueryState :=
  { _cache := { maxCost := 500, entries := [] },
    _pkgManagers := PkgQuery.checkPkgManagers env }

/-- Spec-side (for claim C8, following the spec's words): the record a
single listing line produces — `none` when the line is empty or does not
split into exactly three fields name / architecture / version. -/
def parseLineSpec (line : String) : Option PkgInfo :=
  if line = "" then none
  else
    match qSplit ' ' line with
    | [name, arch, version] => some (PkgInfo.mk name version arch)
    | _ => none

/-- Spec-side (for claim C8, following the spec's words): one record per
non-empty line that splits into exactly three fields name / architecture /
version, every other line skipped. -/
def parsePkgListSpec (output : String) : List PkgInfo :=
  (qSplit '\n' output).filterMap parseLineSpec

/-- Spec-side (for claims C2 and C6): the managers a first-non-empty scan
invokes — every manager up to the first one whose answer is non-empty, that
one included. -/
def scanInvoked (emptyAt : PkgManager → Bool) (ms : List PkgManager) : List PkgManager :=
  let pre := ms.takeWhile emptyAt
  pre ++ (ms.drop pre.length).take 1

/-- A property of an eviction tie-break: when the cache is over capacity it
deletes exactly one existing entry (which one is unspecified). -/
def EvictsOne (σ : EvictFn) : Prop :=
  ∀ es : CacheEntries, es ≠ [] → ∃ i, i < es.length ∧ σ es = es.eraseIdx i

/-- Folding `Cache.insert` over a list of keys (the 600-distinct-paths
cache experiment of the spec). -/
def insertFold (σ : EvictFn) (v : String → String) (c : Cache) (ks : List String) : Cache :=
  ks.foldl (fun c k => c.insert σ k (v k)) c

/-- Folding ownership queries over a list of paths (state evolution of
repeated `ownershipOf` calls). -/
def queryFold (s : PkgQueryState) (ks : List String) : PkgQueryState :=
  ks.foldl (fun s k => (PkgQuery.getOwningPackage s k).2.1) s

/-- A fake backend owning every path (call-count instrumentation fake). -/
def fakeOwnerB : PkgManager :=
  { name := "B", isPrimaryPkgManager := true, isAvailable := true,
    owningPkg := fun _ => "X", installedPkg := [], fileList := fun _ => [] }

/-- Fake backends with fixed file lists `[]`, `[]`, `["a","b"]` (spec's
first-non-empty short-circuit test). -/
def fakeFL1 : PkgManager :=
  { name := "F1", isPrimaryPkgManager := true, isAvailable := true,
    owningPkg := fun _ => "", installedPkg := [], fileList := fun _ => [] }

def fakeFL2 : PkgManager :=
  { name := "F2", isPrimaryPkgManager := true, isAvailable := true,
    owningPkg := fun _ => "", installedPkg := [], fileList := fun _ => [] }

def fakeFL3 : PkgManager :=
  { name := "F3", isPrimaryPkgManager := true, isAvailable := true,
    owningPkg := fun _ => "", installedPkg := [], fileList := fun _ => ["a", "b"] }

/-- Distinct concrete path keys for the cache experiments. -/
def pathKey (i : Nat) : String := String.mk (List.replicate i 'a')

/-- The first `n` distinct path keys. -/
def pathKeys (n : Nat) : List String := (List.range n).map pathKey

/-- An environment in which every command fails with exit code 1. -/
def envFail : SysEnv :=
  { runCommand := fun _ _ => { output := "", exitCode := 1 },
    tryRunCommand := fun _ _ => false,
    haveCommand := fun _ => false }

/-- An environment whose every command echoes pacman's sample ownership
output and exits successfully. -/
def envPacSample : SysEnv :=
  { runCommand := fun _ _ =>
      { output := "/usr/bin/pacman is owned by pacman 5.1.1-3", exitCode := 0 },
    tryRunCommand := fun _ _ => true,
    haveCommand := fun _ => true }

/-! ### Helper lemmas: lists and strings -/

theorem take_append_take {α : Type} :
    ∀ (A : List α) (n m : Nat), n ≤ m → ∀ B : List α,
      List.take n (A ++ List.take m B) = List.take n (A ++ B) := by
  intro A
  induction A with
  | nil => intro n m h B; simp [List.take_take, Nat.min_eq_left h]
  | cons a A ih =>
    intro n m h B
    cases n with
    | zero => simp
    | succ k =>
      simp only [List.cons_append, List.take_succ_cons]
      rw [ih k m (Nat.le_of_succ_le h) B]

theorem dropLast_eq_eraseIdx {α : Type} :
    ∀ l : List α, l.dropLast = l.eraseIdx (l.length - 1)
  | [] => rfl
  | [_] => rfl
  | a :: b :: t => by
    have ih := dropLast_eq_eraseIdx (b :: t)
    simp only [List.dropLast_cons₂, List.length_cons, Nat.add_sub_cancel] at ih ⊢
    rw [ih]
    rfl

/-! ### Helper lemmas: cache trimming and insertion -/

theorem evictLRU_evictsOne : EvictsOne evictLRU := by
  intro es hne
  have hpos : 0 < es.length := List.length_pos.mpr hne
  exact ⟨es.length - 1, by omega, dropLast_eq_eraseIdx es⟩

theorem evictsOne_length {σ : EvictFn} (hσ : EvictsOne σ) {es : CacheEntries}
    (h : es ≠ []) : (σ es).length = es.length - 1 := by
  obtain ⟨i, hi, he⟩ := hσ es h
  rw [he, List.length_eraseIdx]
  simp [hi]

theorem evictsOne_subset {σ : EvictFn} (hσ : EvictsOne σ) {es : CacheEntries}
    (h : es ≠ []) : σ es ⊆ es := by
  obtain ⟨i, _, he⟩ := hσ es h
  rw [he]
  exact (List.eraseIdx_sublist es i).subset

theorem trimLoop_of_le {σ : EvictFn} {mc : Nat} (fuel : Nat) {es : CacheEntries}
    (h : es.length ≤ mc) : Cache.trimLoop σ mc fuel es = es := by
  cases fuel with
  | zero => rfl
  | succ k => simp [Cache.trimLoop, Nat.not_lt.mpr h]

theorem trimLoop_length_le {σ : EvictFn} (hσ : EvictsOne σ) {mc : Nat} :
    ∀ (fuel : Nat) (es : CacheEntries), es.length ≤ mc + fuel →
      (Cache.trimLoop σ mc fuel es).length ≤ mc := by
  intro fuel
  induction fuel with
  | zero => intro es h; rw [Cache.trimLoop]; omega
  | succ k ih =>
    intro es h
    by_cases hlt : mc < es.length
    · have hne : es ≠ [] := by
        intro hnil
        rw [hnil] at hlt
        simp at hlt
      rw [Cache.trimLoop, if_pos hlt]
      exact ih (σ es) (by rw [evictsOne_length hσ hne]; omega)
    · rw [Cache.trimLoop, if_neg hlt]
      omega

theorem trimLoop_length_eq {σ : EvictFn} (hσ : EvictsOne σ) {mc : Nat} :
    ∀ (fuel : Nat) (es : CacheEntries), mc ≤ es.length → es.length ≤ mc + fuel →
      (Cache.trimLoop σ mc fuel es).length = mc := by
  intro fuel
  induction fuel with
  | zero => intro es h1 h2; rw [Cache.trimLoop]; omega
  | succ k ih =>
    intro es h1 h2
    by_cases hlt : mc < es.length
    · have hne : es ≠ [] := by
        intro hnil
        rw [hnil] at hlt
        simp at hlt
      rw [Cache.trimLoop, if_pos hlt]
      have hlen := evictsOne_length hσ hne
      exact ih (σ es) (by omega) (by omega)
    · rw [Cache.trimLoop, if_neg hlt]
      omega

theorem trimLoop_subset {σ : EvictFn} (hσ : EvictsOne σ) {mc : Nat} :
    ∀ (fuel : Nat) (es : CacheEntries), Cache.trimLoop σ mc fuel es ⊆ es := by
  intro fuel
  induction fuel with
  | zero => intro es; rw [Cache.trimLoop]; exact List.Subset.refl es
  | succ k ih =>
    intro es
    by_cases hlt : mc < es.length
    · have hne : es ≠ [] := by
        intro hnil
        rw [hnil] at hlt
        simp at hlt
      rw [Cache.trimLoop, if_pos hlt]
      exact fun x hx => evictsOne_subset hσ hne (ih (σ es) hx)
    · rw [Cache.trimLoop, if_neg hlt]
      exact List.Subset.refl es

theorem trimLoop_dropLast {mc : Nat} :
    ∀ (fuel : Nat) (es : CacheEntries), es.length ≤ mc + fuel →
      Cache.trimLoop evictLRU mc fuel es = if es.length ≤ mc then es else es.take mc := by
  intro fuel
  induction fuel with
  | zero =>
    intro es h
    have hle : es.length ≤ mc := by omega
    rw [Cache.trimLoop, if_pos hle]
  | succ k ih =>
    intro es h
    by_cases hle : es.length ≤ mc
    · rw [Cache.trimLoop, if_neg (Nat.not_lt.mpr hle), if_pos hle]
    · have hlt : mc < es.length := Nat.not_le.mp hle
      rw [Cache.trimLoop, if_pos hlt, if_neg hle]
      have hlen : (evictLRU es).length = es.length - 1 := by
        simp [evictLRU, List.length_dropLast]
      rw [ih (evictLRU es) (by omega)]
      by_cases h2 : (evictLRU es).length ≤ mc
      · rw [if_pos h2]
        have hm : es.length - 1 = mc := by omega
        simp [evictLRU, List.dropLast_eq_take, hm]
      · rw [if_neg h2]
        have hmle : mc ≤ es.length - 1 := by omega
        simp only [evictLRU, List.dropLast_eq_take, List.take_take]
        rw [Nat.min_eq_left hmle]

theorem insert_length_le {σ : EvictFn} (hσ : EvictsOne σ) (c : Cache) (k v : String) :
    (c.insert σ k v).entries.length ≤ c.maxCost := by
  unfold Cache.insert
  exact trimLoop_length_le hσ _ _ (Nat.le_add_left _ _)

theorem containsKey_false_iff (c : Cache) (k : String) :
    c.containsKey k = false ↔ ∀ e ∈ c.entries, e.1 ≠ k := by
  simp [Cache.containsKey]

theorem filter_fresh (c : Cache) (k : String) (h : c.containsKey k = false) :
    c.entries.filter (fun e => !(e.1 == k)) = c.entries := by
  rw [List.filter_eq_self]
  intro e he
  have := (containsKey_false_iff c k).mp h e he
  simp [this]

theorem insert_evictLRU_fresh (c : Cache) (k v : String) (h : c.containsKey k = false) :
    (c.insert evictLRU k v).entries = ((k, v) :: c.entries).take c.maxCost := by
  show Cache.trimLoop evictLRU c.maxCost
      ((k, v) :: c.entries.filter (fun e => !(e.1 == k))).length
      ((k, v) :: c.entries.filter (fun e => !(e.1 == k))) = _
  rw [filter_fresh c k h, trimLoop_dropLast _ _ (Nat.le_add_left _ _)]
  by_cases hle : ((k, v) :: c.entries).length ≤ c.maxCost
  · rw [if_pos hle, List.take_of_length_le hle]
  · rw [if_neg hle]

theorem insert_evictLRU_hit_self (c : Cache) (k v : String) (h : c.containsKey k = false)
    (hmc : 1 ≤ c.maxCost) :
    (c.insert evictLRU k v).containsKey k = true
    ∧ (c.insert evictLRU k v).lookup k = some v := by
  have he := insert_evictLRU_fresh c k v h
  obtain ⟨m, hm⟩ : ∃ m, c.maxCost = m + 1 := ⟨c.maxCost - 1, by omega⟩
  constructor
  · simp [Cache.containsKey, he, hm, List.take_succ_cons]
  · simp [Cache.lookup, he, hm, List.take_succ_cons, List.find?_cons]

/-! ### Helper lemmas: small string facts -/

theorem data_mk (l : List Char) : (String.mk l).data = l := rfl

theorem data_append (a b : String) : (a ++ b).data = a.data ++ b.data := rfl

/-! ### Helper lemmas: the first-non-empty backend scans -/

theorem owningLoop_fst (path : String) :
    ∀ ms : List PkgManager,
      (PkgQuery.owningLoop ms path).1
        = ((ms.map (fun m => m.owningPkg path)).find? (fun a => !a.isEmpty)).getD "" := by
  intro ms
  induction ms with
  | nil => rfl
  | cons m ms ih =>
    cases h : (m.owningPkg path).isEmpty with
    | true => simp [PkgQuery.owningLoop, h, List.find?_cons, ih]
    | false => simp [PkgQuery.owningLoop, h, List.find?_cons]

theorem owningLoop_trace (path : String) :
    ∀ ms : List PkgManager,
      (PkgQuery.owningLoop ms path).2
        = (scanInvoked (fun m => (m.owningPkg path).isEmpty) ms).map (fun m => m.name) := by
  intro ms
  induction ms with
  | nil => rfl
  | cons m ms ih =>
    cases h : (m.owningPkg path).isEmpty with
    | true =>
      simp [PkgQuery.owningLoop, scanInvoked, h, List.takeWhile_cons, List.drop_succ_cons, ih]
    | false =>
      simp [PkgQuery.owningLoop, scanInvoked, h, List.takeWhile_cons]

theorem fileListLoop_fst (pkg : PkgInfo) :
    ∀ ms : List PkgManager,
      (PkgQuery.fileListLoop ms pkg).1
        = ((ms.map (fun m => m.fileList pkg)).find? (fun l => !l.isEmpty)).getD [] := by
  intro ms
  induction ms with
  | nil => rfl
  | cons m ms ih =>
    cases h : (m.fileList pkg).isEmpty with
    | true => simp [PkgQuery.fileListLoop, h, List.find?_cons, ih]
    | false => simp [PkgQuery.fileListLoop, h, List.find?_cons]

theorem fileListLoop_trace (pkg : PkgInfo) :
    ∀ ms : List PkgManager,
      (PkgQuery.fileListLoop ms pkg).2
        = (scanInvoked (fun m => (m.fileList pkg).isEmpty) ms).map (fun m => m.name) := by
  intro ms
  induction ms with
  | nil => rfl
  | cons m ms ih =>
    cases h : (m.fileList pkg).isEmpty with
    | true =>
      simp [PkgQuery.fileListLoop, scanInvoked, h, List.takeWhile_cons, List.drop_succ_cons, ih]
    | false =>
      simp [PkgQuery.fileListLoop, scanInvoked, h, List.takeWhile_cons]

/-! ### Helper lemmas: the registry fold -/

theorem checkPkgManagers_foldl :
    ∀ (ms : List PkgManager) (p s : List PkgManager),
      ms.foldl PkgQuery.checkPkgManager (p, s)
        = (p ++ ms.filter (fun m => m.isPrimaryPkgManager),
           s ++ ms.filter (fun m => !m.isPrimaryPkgManager && m.isAvailable)) := by
  intro ms
  induction ms with
  | nil => intro p s; simp
  | cons m ms ih =>
    intro p s
    cases h1 : m.isPrimaryPkgManager with
    | true => simp [PkgQuery.checkPkgManager, h1, ih, List.filter_cons]
    | false =>
      cases h2 : m.isAvailable with
      | true => simp [PkgQuery.checkPkgManager, h1, h2, ih, List.filter_cons]
      | false => simp [PkgQuery.checkPkgManager, h1, h2, ih, List.filter_cons]

/-! ### Helper lemmas: installed-package concatenation -/

theorem foldl_append_installed :
    ∀ (ms : List PkgManager) (acc : List PkgInfo),
      ms.foldl (fun pkgList m => pkgList ++ m.installedPkg) acc
        = acc ++ (ms.map (fun m => m.installedPkg)).flatten := by
  intro ms
  induction ms with
  | nil => intro acc; simp
  | cons m ms ih => intro acc; simp [ih]

theorem count_flatten_sum (x : PkgInfo) :
    ∀ L : List (List PkgInfo), L.flatten.count x = (L.map (fun l => l.count x)).sum := by
  intro L
  induction L with
  | nil => simp
  | cons l L ih => simp [List.count_append, ih]

/-! ### Helper lemmas: the dpkg list parser -/

theorem parse_foldl :
    ∀ (lines : List String) (acc : List PkgInfo),
      lines.foldl parsePkgListLine acc = acc ++ lines.filterMap parseLineSpec := by
  intro lines
  induction lines with
  | nil => intro acc; simp
  | cons line lines ih =>
    intro acc
    rw [List.foldl_cons, List.filterMap_cons, ih]
    by_cases h : line = ""
    · rw [show parsePkgListLine acc line = acc by simp [parsePkgListLine, h],
        show parseLineSpec line = none by simp [parseLineSpec, h]]
    · rcases hsp : qSplit ' ' line with _ | ⟨a, _ | ⟨b, _ | ⟨c, _ | _⟩⟩⟩ <;>
        simp [parsePkgListLine, parseLineSpec, h, hsp]

/-! ### Helper lemmas: distinct path keys -/

theorem pathKey_injective : Function.Injective pathKey := by
  intro i j h
  have hd : List.replicate i 'a' = List.replicate j 'a' := by
    have hdata := congrArg String.data h
    simp only [pathKey, data_mk] at hdata
    exact hdata
  have hlen := congrArg List.length hd
  simp at hlen
  exact hlen

theorem pathKeys_nodup (n : Nat) : (pathKeys n).Nodup :=
  (List.nodup_range n).map pathKey_injective

theorem pathKeys_length (n : Nat) : (pathKeys n).length = n := by
  simp [pathKeys]

theorem p_not_mem_pathKeys (n : Nat) : "p" ∉ pathKeys n := by
  intro hmem
  simp only [pathKeys, List.mem_map, List.mem_range] at hmem
  obtain ⟨i, -, hi⟩ := hmem
  have hp : "p".data = ['p'] := rfl
  have hdata : List.replicate i 'a' = ['p'] := by
    have := congrArg String.data hi
    rw [data_mk, hp] at this
    exact this
  cases i with
  | zero => simp at hdata
  | succ j =>
    rw [List.replicate_succ] at hdata
    have h1 : 'a' = 'p' := by
      have hh := congrArg List.head? hdata
      simp only [List.head?_cons, Option.some.injEq] at hh
      exact hh
    exact absurd h1 (by decide)

/-! ### Helper lemmas: state evolution of repeated ownership queries -/

theorem getOwningPackage_pkgManagers (s : PkgQueryState) (k : String) :
    ((PkgQuery.getOwningPackage s k).2.1)._pkgManagers = s._pkgManagers := by
  cases h : s._cache.containsKey k with
  | true => simp [PkgQuery.getOwningPackage, h]
  | false => simp [PkgQuery.getOwningPackage, h]

theorem queryFold_pkgManagers :
    ∀ (ks : List String) (s : PkgQueryState),
      (queryFold s ks)._pkgManagers = s._pkgManagers := by
  intro ks
  induction ks with
  | nil => intro s; rfl
  | cons k ks ih =>
    intro s
    show (queryFold ((PkgQuery.getOwningPackage s k).2.1) ks)._pkgManagers = _
    rw [ih, getOwningPackage_pkgManagers]

theorem mk_data (s : String) : String.mk s.data = s := rfl

theorem getOwningPackage_miss_state (s : PkgQueryState) (k : String)
    (h : s._cache.containsKey k = false) :
    (PkgQuery.getOwningPackage s k).2.1
      = { s with _cache :=
            s._cache.insert evictLRU k (PkgQuery.owningLoop s._pkgManagers k).1 } := by
  simp [PkgQuery.getOwningPackage, h]

theorem queryFold_entries :
    ∀ (ks : List String) (s : PkgQueryState),
      s._cache.maxCost = 500 →
      s._cache.entries.length ≤ 500 →
      ks.Nodup →
      (∀ k ∈ ks, ∀ e ∈ s._cache.entries, e.1 ≠ k) →
      (queryFold s ks)._cache.entries
        = List.take 500
            ((ks.reverse.map
                (fun q => (q, (PkgQuery.owningLoop s._pkgManagers q).1)))
              ++ s._cache.entries) := by
  intro ks
  induction ks with
  | nil =>
    intro s hmc hlen _ _
    simpa [queryFold] using (List.take_of_length_le hlen).symm
  | cons k ks ih =>
    intro s hmc hlen hnd hfresh
    have hmiss : s._cache.containsKey k = false :=
      (containsKey_false_iff _ _).mpr (fun e he => hfresh k (by simp) e he)
    have hins : (s._cache.insert evictLRU k (PkgQuery.owningLoop s._pkgManagers k).1).entries
        = ((k, (PkgQuery.owningLoop s._pkgManagers k).1) :: s._cache.entries).take 500 := by
      rw [insert_evictLRU_fresh s._cache k _ hmiss, hmc]
    have h1 : (s._cache.insert evictLRU k (PkgQuery.owningLoop s._pkgManagers k).1).maxCost
        = 500 := by
      simp [Cache.insert, hmc]
    have h2 : (s._cache.insert evictLRU k (PkgQuery.owningLoop s._pkgManagers k).1).entries.length
        ≤ 500 := by
      rw [hins]
      simp [List.length_take]
    have hnd' : ks.Nodup := (List.nodup_cons.mp hnd).2
    have hknotin : k ∉ ks := (List.nodup_cons.mp hnd).1
    have hfresh' : ∀ q ∈ ks,
        ∀ e ∈ (s._cache.insert evictLRU k (PkgQuery.owningLoop s._pkgManagers k).1).entries,
          e.1 ≠ q := by
      intro q hq e he
      rw [hins] at he
      have he2 := List.take_subset 500 _ he
      rcases List.mem_cons.mp he2 with heq | hmem
      · rw [heq]
        intro hEq
        exact hknotin (by rw [show k = q from hEq]; exact hq)
      · exact hfresh q (by simp [hq]) e hmem
    rw [show queryFold s (k :: ks) = queryFold ((PkgQuery.getOwningPackage s k).2.1) ks from rfl,
      getOwningPackage_miss_state s k hmiss,
      ih (PkgQueryState.mk
        (Cache.insert evictLRU s._cache k (PkgQuery.owningLoop s._pkgManagers k).1)
        s._pkgManagers) h1 h2 hnd' hfresh']
    show List.take 500
        ((ks.reverse.map (fun q => (q, (PkgQuery.owningLoop s._pkgManagers q).1)))
          ++ (s._cache.insert evictLRU k (PkgQuery.owningLoop s._pkgManagers k).1).entries)
      = _
    rw [hins, take_append_take _ 500 500 (Nat.le_refl 500)]
    simp [List.reverse_cons]

/-! ### Helper lemmas: greedy pattern stripping (pacman output) -/

theorem startsWithL_append_self :
    ∀ (pat rest : List Char), startsWithL (pat ++ rest) pat = true := by
  intro pat
  induction pat with
  | nil => intro rest; cases rest <;> rfl
  | cons p ps ih => intro rest; simp [startsWithL, ih]

theorem afterLastL_none {p0 : Char} {ps : List Char} :
    ∀ l : List Char, containsL l (p0 :: ps) = false → afterLastL l (p0 :: ps) = none := by
  intro l
  induction l with
  | nil => intro _; rfl
  | cons c cs ih =>
    intro h
    rw [containsL] at h
    simp only [Bool.or_eq_false_iff] at h
    rw [afterLastL, ih h.2, h.1]
    rfl

theorem containsL_head_free :
    ∀ (A B : List Char) (p0 : Char) (ps : List Char),
      (∀ c ∈ A, c ≠ p0) → containsL B (p0 :: ps) = false →
      containsL (A ++ B) (p0 :: ps) = false := by
  intro A
  induction A with
  | nil => intro B p0 ps _ hB; simpa using hB
  | cons a A ih =>
    intro B p0 ps hA hB
    have ha : a ≠ p0 := hA a (by simp)
    rw [List.cons_append, containsL]
    have h1 : startsWithL (a :: (A ++ B)) (p0 :: ps) = false := by
      rw [startsWithL]
      simp [ha]
    rw [h1, ih B p0 ps (fun c hc => hA c (by simp [hc])) hB]
    rfl

theorem afterLastL_strip :
    ∀ (pre : List Char) (p0 : Char) (ps rest : List Char),
      containsL (ps ++ rest) (p0 :: ps) = false →
      afterLastL (pre ++ (p0 :: ps) ++ rest) (p0 :: ps) = some rest := by
  intro pre
  induction pre with
  | nil =>
    intro p0 ps rest h
    have hl : ([] : List Char) ++ (p0 :: ps) ++ rest = p0 :: (ps ++ rest) := by simp
    rw [hl, afterLastL, afterLastL_none _ h]
    have hsw : startsWithL (p0 :: (ps ++ rest)) (p0 :: ps) = true := by
      have hx := startsWithL_append_self (p0 :: ps) rest
      simpa using hx
    rw [hsw]
    simp only [if_true]
    rw [show (p0 :: ps).length = ps.length + 1 from rfl]
    rw [List.drop_succ_cons]
    rw [List.drop_left ps rest]
  | cons c pre ih =>
    intro p0 ps rest h
    have hl : (c :: pre) ++ (p0 :: ps) ++ rest = c :: (pre ++ (p0 :: ps) ++ rest) := by simp
    rw [hl, afterLastL, ih p0 ps rest h]

theorem removeDotStar_strip (pre rest : String)
    (h : containsL rest.data ("is owned by ".data) = false) :
    removeDotStarPat (pre ++ "is owned by " ++ rest) "is owned by " = rest := by
  unfold removeDotStarPat
  have hdata : (pre ++ "is owned by " ++ rest).data
      = pre.data ++ "is owned by ".data ++ rest.data := by
    rw [data_append, data_append]
  have hpat : "is owned by ".data = 'i' :: "s owned by ".data := rfl
  have hfree : ∀ c ∈ "s owned by ".data, c ≠ 'i' := by decide
  have h2 : containsL ("s owned by ".data ++ rest.data) ('i' :: "s owned by ".data) = false :=
    containsL_head_free _ _ _ _ hfree (by rw [← hpat]; exact h)
  rw [hdata, hpat, afterLastL_strip pre.data 'i' ("s owned by ".data) rest.data h2]

theorem getOwningPackage_hit (t : PkgQueryState) (p : String)
    (h : t._cache.containsKey p = true) :
    PkgQuery.getOwningPackage t p = ((t._cache.lookup p).getD "", t, []) := by
  simp [PkgQuery.getOwningPackage, h]

/-! ### The claims -/

/-- Claim C3: after the one-time registry build, every backend classified
primary precedes every backend classified secondary and the fixed probe
order Dpkg, Rpm, Pacman is preserved within each class — the active list is
exactly the primary-filtered probe list followed by the secondary-filtered
probe list — and a backend that is neither primary nor available appears
nowhere in the list. -/
theorem claim3_registry_order (env : SysEnv) :
    PkgQuery.checkPkgManagers env
      = (PkgQuery.probeOrder env).filter (fun m => m.isPrimaryPkgManager)
        ++ (PkgQuery.probeOrder env).filter
            (fun m => !m.isPrimaryPkgManager && m.isAvailable)
    ∧ ∀ m ∈ PkgQuery.checkPkgManagers env,
        m.isPrimaryPkgManager = true ∨ m.isAvailable = true := by
  have h : PkgQuery.checkPkgManagers env
      = (PkgQuery.probeOrder env).filter (fun m => m.isPrimaryPkgManager)
        ++ (PkgQuery.probeOrder env).filter
            (fun m => !m.isPrimaryPkgManager && m.isAvailable) := by
    unfold PkgQuery.checkPkgManagers
    rw [checkPkgManagers_foldl]
    simp
  refine ⟨h, ?_⟩
  intro m hm
  rw [h] at hm
  rcases List.mem_append.mp hm with h1 | h2
  · exact Or.inl (List.of_mem_filter h1)
  · have h3 := List.of_mem_filter h2
    simp only [Bool.and_eq_true, Bool.not_eq_eq_eq_not, Bool.not_true] at h3
    exact Or.inr h3.2

/-- Claim C5: installedPackages() equals the concatenation of every active
backend's installedPackages() in registry order — within-backend order
preserved (the result is the flattening of the per-backend lists) and no
de-duplication: the occurrence count of any record in the result is the
sum of its per-backend occurrence counts, so a package reported by two
backends appears twice. -/
theorem claim5_installed_concat (s : PkgQueryState) :
    PkgQuery.getInstalledPkg s = (s._pkgManagers.map (fun m => m.installedPkg)).flatten
    ∧ ∀ x : PkgInfo,
        (PkgQuery.getInstalledPkg s).count x
          = ((s._pkgManagers.map (fun m => m.installedPkg)).map (fun l => l.count x)).sum := by
  have h : PkgQuery.getInstalledPkg s
      = (s._pkgManagers.map (fun m => m.installedPkg)).flatten := by
    unfold PkgQuery.getInstalledPkg
    rw [foldl_append_installed]
    simp
  exact ⟨h, fun x => by rw [h, count_flatten_sum]⟩

/-- Claim C6: fileListOf(pkg) returns the file list of the first backend in
registry order whose fileList(pkg) is non-empty without invoking any
backend after it (the invocation trace is exactly the scan up to and
including the first hit), returns the empty list when every backend
returns empty, and with backends returning [], [], ["a","b"] in registry
order it returns ["a","b"]. -/
theorem claim6_filelist_first_nonempty (s : PkgQueryState) (pkg : PkgInfo) :
    (PkgQuery.getFileList s pkg).1
        = ((s._pkgManagers.map (fun m => m.fileList pkg)).find? (fun l => !l.isEmpty)).getD []
    ∧ (PkgQuery.getFileList s pkg).2
        = (scanInvoked (fun m => (m.fileList pkg).isEmpty) s._pkgManagers).map
            (fun m => m.name)
    ∧ (PkgQuery.getFileList
          (PkgQueryState.mk (Cache.mk 500 []) [fakeFL1, fakeFL2, fakeFL3]) pkg).1
        = ["a", "b"]
    ∧ (PkgQuery.getFileList
          (PkgQueryState.mk (Cache.mk 500 []) [fakeFL1, fakeFL2, fakeFL3]) pkg).2
        = ["F1", "F2", "F3"] := by
  exact ⟨fileListLoop_fst pkg s._pkgManagers, fileListLoop_trace pkg s._pkgManagers, rfl, rfl⟩

/-- Claim C8: the dpkg installed-list parser produces one record per
non-empty line that splits into exactly three space-separated fields (name,
architecture, version, in input order) and skips every other line without
failing the whole parse; in particular
"pkgA amd64 1.0\nGARBAGE\npkgB amd64 2.0" parses to exactly the records
pkgA/amd64/1.0 and pkgB/amd64/2.0. -/
theorem claim8_parse_skips_malformed (output : String) :
    DpkgPkgManager.parsePkgList output = parsePkgListSpec output
    ∧ DpkgPkgManager.parsePkgList "pkgA amd64 1.0\nGARBAGE\npkgB amd64 2.0"
        = [PkgInfo.mk "pkgA" "1.0" "amd64", PkgInfo.mk "pkgB" "2.0" "amd64"] := by
  constructor
  · unfold DpkgPkgManager.parsePkgList parsePkgListSpec
    rw [parse_foldl]
    simp
  · decide

/-- Claim C7: for each backend, owningPkg(path) returns the empty string
whenever the invocation exits non-zero or the output contains that
backend's failure-marker substring (dpkg: "no path found matching
pattern", rpm: "not owned by any package", pacman: "No package owns");
being a total function it never raises an error for a not-found result. -/
theorem claim7_owning_failure_empty (env : SysEnv) (m : RpmPkgManager) (path : String) :
    ((env.runCommand "/usr/bin/dpkg" ["-S", path]).exitCode ≠ 0
        ∨ qContains (env.runCommand "/usr/bin/dpkg" ["-S", path]).output
            "no path found matching pattern" = true →
      DpkgPkgManager.owningPkg env path = "")
    ∧ ((env.runCommand m._rpmCommand ["-qf", "--queryformat", "%{NAME}", path]).exitCode ≠ 0
        ∨ qContains
            (env.runCommand m._rpmCommand ["-qf", "--queryformat", "%{NAME}", path]).output
            "not owned by any package" = true →
      RpmPkgManager.owningPkg env m path = "")
    ∧ ((env.runCommand "/usr/bin/pacman" ["-Qo", path]).exitCode ≠ 0
        ∨ qContains (env.runCommand "/usr/bin/pacman" ["-Qo", path]).output
            "No package owns" = true →
      PacManPkgManager.owningPkg env path = "") := by
  refine ⟨fun h => ?_, fun h => ?_, fun h => ?_⟩
  · unfold DpkgPkgManager.owningPkg
    rcases h with h | h
    · simp [h]
    · simp [h]
  · unfold RpmPkgManager.owningPkg
    rcases h with h | h
    · simp [h]
    · simp [h]
  · unfold PacManPkgManager.owningPkg
    rcases h with h | h
    · simp [h]
    · simp [h]

/-- Witness for claim C7: in an environment where every command exits with
code 1, all three backends answer the empty string. -/
theorem claim7_owning_failure_empty_witness :
    DpkgPkgManager.owningPkg envFail "/some/path" = ""
    ∧ RpmPkgManager.owningPkg envFail (RpmPkgManager.construct envFail) "/some/path" = ""
    ∧ PacManPkgManager.owningPkg envFail "/some/path" = "" :=
  ⟨(claim7_owning_failure_empty envFail (RpmPkgManager.construct envFail) "/some/path").1
      (Or.inl (by decide)),
   (claim7_owning_failure_empty envFail (RpmPkgManager.construct envFail) "/some/path").2.1
      (Or.inl (by decide)),
   (claim7_owning_failure_empty envFail (RpmPkgManager.construct envFail) "/some/path").2.2
      (Or.inl (by decide))⟩

/-- Claim C10: after RpmPkgManager construction, the resolved command path
is never empty — "/usr/bin/rpm" when that binary exists at construction
time and "/bin/rpm" otherwise, even when neither binary exists — and every
rpm operation (isPrimaryPkgManager, isAvailable, owningPkg) consults the
environment only at the stored resolved path, never re-resolving it: two
environments that agree at the resolved path get identical answers. -/
theorem claim10_rpm_resolved_path (env : SysEnv) :
    (RpmPkgManager.construct env)._rpmCommand ≠ ""
    ∧ (env.haveCommand "/usr/bin/rpm" = true →
        (RpmPkgManager.construct env)._rpmCommand = "/usr/bin/rpm")
    ∧ (env.haveCommand "/usr/bin/rpm" = false →
        (RpmPkgManager.construct env)._rpmCommand = "/bin/rpm")
    ∧ (∀ (env2 : SysEnv) (m : RpmPkgManager),
        env2.haveCommand m._rpmCommand = env.haveCommand m._rpmCommand →
        RpmPkgManager.isAvailable env2 m = RpmPkgManager.isAvailable env m)
    ∧ (∀ (env2 : SysEnv) (m : RpmPkgManager),
        env2.tryRunCommand (m._rpmCommand ++ " -qf " ++ m._rpmCommand) "^rpm.*"
            = env.tryRunCommand (m._rpmCommand ++ " -qf " ++ m._rpmCommand) "^rpm.*" →
        RpmPkgManager.isPrimaryPkgManager env2 m = RpmPkgManager.isPrimaryPkgManager env m)
    ∧ (∀ (env2 : SysEnv) (m : RpmPkgManager) (path : String),
        env2.runCommand m._rpmCommand ["-qf", "--queryformat", "%{NAME}", path]
            = env.runCommand m._rpmCommand ["-qf", "--queryformat", "%{NAME}", path] →
        RpmPkgManager.owningPkg env2 m path = RpmPkgManager.owningPkg env m path) := by
  refine ⟨?_, ?_, ?_, ?_, ?_, ?_⟩
  · unfold RpmPkgManager.construct
    cases h : env.haveCommand "/usr/bin/rpm" <;> simp [h]
  · intro h
    simp [RpmPkgManager.construct, h]
  · intro h
    simp [RpmPkgManager.construct, h]
  · intro env2 m h
    unfold RpmPkgManager.isAvailable
    rw [h]
  · intro env2 m h
    unfold RpmPkgManager.isPrimaryPkgManager
    rw [h]
  · intro env2 m path h
    unfold RpmPkgManager.owningPkg
    rw [h]

/-- Witness for claim C10: with no binaries present at all, the resolved
path is "/bin/rpm" and in particular non-empty, and an environment change
away from the resolved path leaves isAvailable unchanged. -/
theorem claim10_rpm_resolved_path_witness :
    (RpmPkgManager.construct envFail)._rpmCommand ≠ ""
    ∧ (RpmPkgManager.construct envFail)._rpmCommand = "/bin/rpm"
    ∧ RpmPkgManager.isAvailable envFail (RpmPkgManager.construct envFail)
        = RpmPkgManager.isAvailable envFail (RpmPkgManager.construct envFail) :=
  ⟨(claim10_rpm_resolved_path envFail).1,
   (claim10_rpm_resolved_path envFail).2.2.1 (by decide),
   (claim10_rpm_resolved_path envFail).2.2.2.1 envFail (RpmPkgManager.construct envFail) rfl⟩

/-- Claim C2: on a cache miss, ownershipOf(path) iterates the active
backends in registry order and returns the first non-empty owningPkg
result (the empty string when every backend returns empty); backends after
the first hit are not invoked (the invocation trace is exactly the scan up
to and including the first hit); and the returned value, empty or not, is
stored in the cache under the path. -/
theorem claim2_owning_miss (s : PkgQueryState) (path : String)
    (hmiss : s._cache.containsKey path = false) (hmc : 1 ≤ s._cache.maxCost) :
    (PkgQuery.getOwningPackage s path).1
        = ((s._pkgManagers.map (fun m => m.owningPkg path)).find?
            (fun a => !a.isEmpty)).getD ""
    ∧ (PkgQuery.getOwningPackage s path).2.2
        = (scanInvoked (fun m => (m.owningPkg path).isEmpty) s._pkgManagers).map
            (fun m => m.name)
    ∧ ((PkgQuery.getOwningPackage s path).2.1)._cache.lookup path
        = some ((PkgQuery.getOwningPackage s path).1) := by
  have hfst : (PkgQuery.getOwningPackage s path).1
      = (PkgQuery.owningLoop s._pkgManagers path).1 := by
    simp [PkgQuery.getOwningPackage, hmiss]
  have hsnd : (PkgQuery.getOwningPackage s path).2.2
      = (PkgQuery.owningLoop s._pkgManagers path).2 := by
    simp [PkgQuery.getOwningPackage, hmiss]
  refine ⟨?_, ?_, ?_⟩
  · rw [hfst, owningLoop_fst]
  · rw [hsnd, owningLoop_trace]
  · rw [getOwningPackage_miss_state s path hmiss, hfst]
    show (s._cache.insert evictLRU path (PkgQuery.owningLoop s._pkgManagers path).1).lookup path
        = _
    exact (insert_evictLRU_hit_self s._cache path _ hmiss hmc).2

/-- Witness for claim C2: a fresh capacity-500 service with one fake
backend that owns every path answers "X" for "p" from that backend and
stores it. -/
theorem claim2_owning_miss_witness :
    (PkgQueryState.mk (Cache.mk 500 []) [fakeOwnerB])._cache.containsKey "p" = false
    ∧ 1 ≤ (PkgQueryState.mk (Cache.mk 500 []) [fakeOwnerB])._cache.maxCost
    ∧ (PkgQuery.getOwningPackage (PkgQueryState.mk (Cache.mk 500 []) [fakeOwnerB]) "p").1
        = (((PkgQueryState.mk (Cache.mk 500 []) [fakeOwnerB])._pkgManagers.map
            (fun m => m.owningPkg "p")).find? (fun a => !a.isEmpty)).getD "" :=
  ⟨rfl, by decide,
   (claim2_owning_miss (PkgQueryState.mk (Cache.mk 500 []) [fakeOwnerB]) "p" rfl
      (by decide)).1⟩

/-- Claim C1 (amended): while a path p remains resident in the bounded
cache, every ownershipOf(p) call is answered from the cache and invokes no
backend; in particular two consecutive ownershipOf(p) calls return
identical results and the second invokes no backend.  (The original
unconditional "at most once per process lifetime" fails once capacity
eviction removes p; see the counterexample.) -/
theorem claim1_cached_idempotent (s : PkgQueryState) (p : String)
    (hmc : 1 ≤ s._cache.maxCost) :
    ((PkgQuery.getOwningPackage ((PkgQuery.getOwningPackage s p).2.1) p).1
        = (PkgQuery.getOwningPackage s p).1
      ∧ (PkgQuery.getOwningPackage ((PkgQuery.getOwningPackage s p).2.1) p).2.2 = [])
    ∧ (s._cache.containsKey p = true →
        (PkgQuery.getOwningPackage s p).2.2 = []
        ∧ (PkgQuery.getOwningPackage s p).1 = (s._cache.lookup p).getD "") := by
  cases hc : s._cache.containsKey p with
  | true =>
    have h1 := getOwningPackage_hit s p hc
    simp [h1]
  | false =>
    have hfst : (PkgQuery.getOwningPackage s p).1
        = (PkgQuery.owningLoop s._pkgManagers p).1 := by
      simp [PkgQuery.getOwningPackage, hc]
    have hhit := insert_evictLRU_hit_self s._cache p
      (PkgQuery.owningLoop s._pkgManagers p).1 hc hmc
    have h2 := getOwningPackage_hit
      (PkgQueryState.mk
        (s._cache.insert evictLRU p (PkgQuery.owningLoop s._pkgManagers p).1)
        s._pkgManagers) p hhit.1
    refine ⟨⟨?_, ?_⟩, fun hcontra => absurd hcontra (by simp [hc])⟩
    · rw [getOwningPackage_miss_state s p hc, h2, hfst]
      show ((s._cache.insert evictLRU p
          (PkgQuery.owningLoop s._pkgManagers p).1).lookup p).getD "" = _
      rw [hhit.2]
      rfl
    · rw [getOwningPackage_miss_state s p hc, h2]

/-- Witness for claim C1 (amended): on a fresh capacity-500 service with
one fake backend, the second of two consecutive ownershipOf("p") calls
returns the first call's result and invokes no backend. -/
theorem claim1_cached_idempotent_witness :
    1 ≤ (PkgQueryState.mk (Cache.mk 500 []) [fakeOwnerB])._cache.maxCost
    ∧ (PkgQuery.getOwningPackage
        ((PkgQuery.getOwningPackage
            (PkgQueryState.mk (Cache.mk 500 []) [fakeOwnerB]) "p").2.1) "p").1
        = (PkgQuery.getOwningPackage (PkgQueryState.mk (Cache.mk 500 []) [fakeOwnerB]) "p").1
    ∧ (PkgQuery.getOwningPackage
        ((PkgQuery.getOwningPackage
            (PkgQueryState.mk (Cache.mk 500 []) [fakeOwnerB]) "p").2.1) "p").2.2 = [] :=
  ⟨by decide,
   (claim1_cached_idempotent (PkgQueryState.mk (Cache.mk 500 []) [fakeOwnerB]) "p"
      (by decide)).1.1,
   (claim1_cached_idempotent (PkgQueryState.mk (Cache.mk 500 []) [fakeOwnerB]) "p"
      (by decide)).1.2⟩

/-- Counterexample to claim C1 as stated: query "p" once on a fresh
capacity-500 service with one fake backend owning every path, then query
500 further distinct paths (evicting "p"), and the next ownershipOf("p")
call invokes the backend again — so a later call after the first is not
always answered from the cache. -/
theorem claim1_requery_after_eviction :
    (PkgQuery.getOwningPackage
        (queryFold
          ((PkgQuery.getOwningPackage
              (PkgQueryState.mk (Cache.mk 500 []) [fakeOwnerB]) "p").2.1)
          (pathKeys 500))
        "p").2.2 ≠ [] := by
  have hs1 : (PkgQuery.getOwningPackage
      (PkgQueryState.mk (Cache.mk 500 []) [fakeOwnerB]) "p").2.1
      = PkgQueryState.mk (Cache.mk 500 [("p", "X")]) [fakeOwnerB] := rfl
  rw [hs1]
  have hfresh : ∀ k ∈ pathKeys 500,
      ∀ e ∈ (PkgQueryState.mk (Cache.mk 500 [("p", "X")]) [fakeOwnerB])._cache.entries,
        e.1 ≠ k := by
    intro k hk e he
    have he2 : e = ("p", "X") := by simpa using he
    rw [he2]
    intro hEq
    exact p_not_mem_pathKeys 500 (by rw [show "p" = k from hEq]; exact hk)
  have hq := queryFold_entries (pathKeys 500)
    (PkgQueryState.mk (Cache.mk 500 [("p", "X")]) [fakeOwnerB])
    rfl (by decide) (pathKeys_nodup 500) hfresh
  have hA : ((pathKeys 500).reverse.map
      (fun q => (q, (PkgQuery.owningLoop
        (PkgQueryState.mk (Cache.mk 500 [("p", "X")]) [fakeOwnerB])._pkgManagers q).1))).length
      = 500 := by
    simp [pathKeys_length]
  have hentries : (queryFold
      (PkgQueryState.mk (Cache.mk 500 [("p", "X")]) [fakeOwnerB]) (pathKeys 500))._cache.entries
      = (pathKeys 500).reverse.map
          (fun q => (q, (PkgQuery.owningLoop
            (PkgQueryState.mk (Cache.mk 500 [("p", "X")]) [fakeOwnerB])._pkgManagers q).1)) := by
    rw [hq, List.take_left' hA]
  have hcontains : (queryFold
      (PkgQueryState.mk (Cache.mk 500 [("p", "X")]) [fakeOwnerB])
      (pathKeys 500))._cache.containsKey "p" = false := by
    rw [Cache.containsKey, hentries, List.any_eq_false]
    intro e he
    rcases List.mem_map.mp he with ⟨q, hqmem, hqe⟩
    have hqp : q ≠ "p" := by
      intro hEq
      exact p_not_mem_pathKeys 500 (by rw [← hEq]; exact (List.mem_reverse.mp hqmem))
    rw [← hqe]
    simp [hqp]
  have hmgr : (queryFold
      (PkgQueryState.mk (Cache.mk 500 [("p", "X")]) [fakeOwnerB])
      (pathKeys 500))._pkgManagers = [fakeOwnerB] :=
    queryFold_pkgManagers (pathKeys 500) _
  have hfinal : (PkgQuery.getOwningPackage
      (queryFold (PkgQueryState.mk (Cache.mk 500 [("p", "X")]) [fakeOwnerB]) (pathKeys 500))
      "p").2.2
      = (PkgQuery.owningLoop [fakeOwnerB] "p").2 := by
    simp [PkgQuery.getOwningPackage, hcontains, hmgr]
  rw [hfinal]
  decide

theorem insert_maxCost (σ : EvictFn) (c : Cache) (k v : String) :
    (c.insert σ k v).maxCost = c.maxCost := rfl

theorem insert_length_fresh {σ : EvictFn} (hσ : EvictsOne σ) (c : Cache) (k v : String)
    (hfresh : c.containsKey k = false) (hle : c.entries.length ≤ c.maxCost) :
    (c.insert σ k v).entries.length = min (c.entries.length + 1) c.maxCost := by
  show (Cache.trimLoop σ c.maxCost
      ((k, v) :: c.entries.filter (fun e => !(e.1 == k))).length
      ((k, v) :: c.entries.filter (fun e => !(e.1 == k)))).length = _
  rw [filter_fresh c k hfresh]
  by_cases h : c.entries.length + 1 ≤ c.maxCost
  · rw [trimLoop_of_le _ (by simpa using h)]
    simp
    omega
  · have hmceq : c.maxCost ≤ ((k, v) :: c.entries).length := by
      simp
      omega
    rw [trimLoop_length_eq hσ _ _ hmceq (by simp)]
    omega

theorem insert_mem {σ : EvictFn} (hσ : EvictsOne σ) (c : Cache) (k v : String) :
    ∀ e ∈ (c.insert σ k v).entries, e = (k, v) ∨ e ∈ c.entries := by
  intro e he
  have hsub : e ∈ (k, v) :: c.entries.filter (fun x => !(x.1 == k)) :=
    trimLoop_subset hσ _ _ he
  rcases List.mem_cons.mp hsub with heq | hmem
  · exact Or.inl heq
  · exact Or.inr (List.mem_of_mem_filter hmem)

theorem insert_containsKey_false {σ : EvictFn} (hσ : EvictsOne σ) (c : Cache)
    (k v q : String) (hq : c.containsKey q = false) (hkq : k ≠ q) :
    (c.insert σ k v).containsKey q = false := by
  rw [Cache.containsKey, List.any_eq_false]
  intro e he
  rcases insert_mem hσ c k v e he with heq | hmem
  · rw [heq]
    simp [hkq]
  · have := (containsKey_false_iff c q).mp hq e hmem
    simp [this]

theorem insertFold_length_eq {σ : EvictFn} (hσ : EvictsOne σ) (v : String → String) :
    ∀ (ks : List String) (c : Cache), ks.Nodup →
      (∀ k ∈ ks, c.containsKey k = false) →
      c.entries.length ≤ c.maxCost →
      (insertFold σ v c ks).entries.length = min (c.entries.length + ks.length) c.maxCost := by
  intro ks
  induction ks with
  | nil =>
    intro c _ _ hle
    simp [insertFold]
    omega
  | cons k ks ih =>
    intro c hnd hfresh hle
    have hstep : insertFold σ v c (k :: ks) = insertFold σ v (c.insert σ k (v k)) ks := rfl
    rw [hstep]
    have h1 : ks.Nodup := (List.nodup_cons.mp hnd).2
    have hknotin : k ∉ ks := (List.nodup_cons.mp hnd).1
    have h2 : ∀ q ∈ ks, (c.insert σ k (v k)).containsKey q = false := by
      intro q hq
      exact insert_containsKey_false hσ c k (v k) q (hfresh q (by simp [hq]))
        (fun hEq => hknotin (by rw [hEq]; exact hq))
    have h3 : (c.insert σ k (v k)).entries.length ≤ (c.insert σ k (v k)).maxCost := by
      rw [insert_maxCost]
      exact insert_length_le hσ c k (v k)
    have h4 := ih (c.insert σ k (v k)) h1 h2 h3
    rw [h4, insert_maxCost,
      insert_length_fresh hσ c k (v k) (hfresh k (by simp)) hle]
    simp
    omega

theorem insertFold_length_le {σ : EvictFn} (hσ : EvictsOne σ) (v : String → String) :
    ∀ (ks : List String) (c : Cache), c.entries.length ≤ c.maxCost →
      (insertFold σ v c ks).entries.length ≤ c.maxCost := by
  intro ks
  induction ks with
  | nil => intro c hle; simpa [insertFold] using hle
  | cons k ks ih =>
    intro c hle
    have hstep : insertFold σ v c (k :: ks) = insertFold σ v (c.insert σ k (v k)) ks := rfl
    rw [hstep]
    have h3 : (c.insert σ k (v k)).entries.length ≤ (c.insert σ k (v k)).maxCost := by
      rw [insert_maxCost]
      exact insert_length_le hσ c k (v k)
    have := ih (c.insert σ k (v k)) h3
    rwa [insert_maxCost] at this

/-- Claim C4: the ownership cache never holds more than 500 entries — for
any eviction tie-break, inserting any paths (each with cost 1) into the
capacity-500 cache leaves at most 500 resident at every point, and
inserting 600 distinct paths leaves exactly 500 resident. -/
theorem claim4_cache_bound (σ : EvictFn) (hσ : EvictsOne σ) (v : String → String)
    (ks : List String) (hnd : ks.Nodup) (hlen : ks.length = 600) :
    (insertFold σ v (Cache.mk 500 []) ks).entries.length = 500
    ∧ ∀ qs : List String, (insertFold σ v (Cache.mk 500 []) qs).entries.length ≤ 500 := by
  constructor
  · rw [insertFold_length_eq hσ v ks (Cache.mk 500 []) hnd
      (fun k _ => rfl) (by simp), hlen]
    rfl
  · intro qs
    exact insertFold_length_le hσ v qs (Cache.mk 500 []) (by simp)

/-- Witness for claim C4: the LRU tie-break evicts exactly one entry, the
600 concrete path keys are distinct, and inserting them into the
capacity-500 cache leaves exactly 500 resident. -/
theorem claim4_cache_bound_witness :
    EvictsOne evictLRU ∧ (pathKeys 600).Nodup ∧ (pathKeys 600).length = 600
    ∧ (insertFold evictLRU (fun _ => "") (Cache.mk 500 []) (pathKeys 600)).entries.length
        = 500 :=
  ⟨evictLRU_evictsOne, pathKeys_nodup 600, pathKeys_length 600,
   (claim4_cache_bound evictLRU evictLRU_evictsOne (fun _ => "") (pathKeys 600)
      (pathKeys_nodup 600) (pathKeys_length 600)).1⟩

/-- Claim C9: the pacman ownership parser, on a successful invocation whose
output has the shape `<path> is owned by <rest>` (with no further
occurrence of the marker in the remainder), strips the leading
`"<path> is owned by "` part and returns the field of the remainder before
the first blank as the package name; in particular the raw output
"/usr/bin/pacman is owned by pacman 5.1.1-3" yields "pacman". -/
theorem claim9_pacman_strip (env : SysEnv) (path pre rest : String)
    (hexit : (env.runCommand "/usr/bin/pacman" ["-Qo", path]).exitCode = 0)
    (hout : (env.runCommand "/usr/bin/pacman" ["-Qo", path]).output
        = pre ++ "is owned by " ++ rest)
    (hmark : qContains (env.runCommand "/usr/bin/pacman" ["-Qo", path]).output
        "No package owns" = false)
    (hrest : containsL rest.data "is owned by ".data = false) :
    PacManPkgManager.owningPkg env path = qSection0 rest " "
    ∧ PacManPkgManager.owningPkg envPacSample "/usr/bin/pacman" = "pacman" := by
  constructor
  · unfold PacManPkgManager.owningPkg
    have hcond : ((env.runCommand "/usr/bin/pacman" ["-Qo", path]).exitCode != 0
        || qContains (env.runCommand "/usr/bin/pacman" ["-Qo", path]).output
            "No package owns") = false := by
      rw [hexit, hmark]
      rfl
    simp only [hcond, Bool.false_eq_true, if_false]
    rw [hout, removeDotStar_strip pre rest hrest]
  · decide

/-- Witness for claim C9: the sample environment returning
"/usr/bin/pacman is owned by pacman 5.1.1-3" with exit code 0 satisfies
every hypothesis, and the parsed package name is "pacman". -/
theorem claim9_pacman_strip_witness :
    PacManPkgManager.owningPkg envPacSample "/usr/bin/pacman"
        = qSection0 "pacman 5.1.1-3" " "
    ∧ qSection0 "pacman 5.1.1-3" " " = "pacman" :=
  ⟨(claim9_pacman_strip envPacSample "/usr/bin/pacman" "/usr/bin/pacman " "pacman 5.1.1-3"
      (by decide) (by decide) (by decide) (by decide)).1,
   by decide⟩
